import Mathlib

/-!
# Verification of the descendant-numbering engine of CompactDetailedDescendantReport

This file is a shallow embedding, in Lean 4, of the descendant-numbering
engine of `CompactDetailedDescendantReport.py`: the constant `HENRY`, the
three traversal filters `apply_henry_filter`, `apply_mhenry_filter` and
`apply_daboville_filter`, and the scheme dispatch performed in
`CompactDetailedDescendantReport.__init__`.

Modelling conventions:

* Python strings are modelled as `List Char` (`PyStr`), so that every
  operation (slicing, splitting, lexicographic comparison) is a structural
  Lean function the kernel can evaluate.
* The Gramps database is an external collaborator; it is modelled as total
  maps from handles to person records and family records (`DB`).
* Python dicts (`self.map`, `self.dnumber`) are modelled as
  insertion-ordered association lists with update-in-place semantics
  (`ainsert` / `alookup`).
* The mutable report state (`self.map`, `self.gen_keys`, `self.dnumber`) is
  threaded explicitly (`EngState`).  `EngState.trace` is a proof-side visit
  log recording each `(index, generation)` visit exactly where the source
  updates `self.map` and `self.gen_keys`; it does not influence the
  computation and only serves to state traversal-order properties.
* Fallible Python operations (the `HENRY[index]` lookup, `int(...)`
  conversion, use of a possibly-unbound local) are modelled in `Except`,
  with an error aborting the run like an uncaught Python exception.
* The recursive filters take an explicit fuel argument; the entry points
  (`henryRun`, `mhenryRun`, `dabRun`) pass `max_generations + 1`, which is
  never exhausted because the source recursion stops once the current
  generation exceeds `max_generations`.
-/

/-- Python strings, modelled as their list of characters. -/
abbrev PyStr := List Char

/-- Uncaught Python exceptions that the engine can raise. -/
inductive PyErr where
  /-- `IndexError`: sequence index out of range (`HENRY[index]`). -/
  | indexError : PyErr
  /-- `ValueError`: `int(...)` applied to a non-numeric string. -/
  | valueError : PyErr
  /-- `UnboundLocalError`: `first_num` read before any branch assigned it. -/
  | unboundLocal : PyErr
deriving DecidableEq, Repr

/-- Python's lexicographic `<` on strings (by code point). -/
def pyStrLt : PyStr → PyStr → Bool
  | [], [] => false
  | [], _ :: _ => true
  | _ :: _, [] => false
  | a :: as, b :: bs => if a < b then true else if b < a then false else pyStrLt as bs

/-- Python's truthiness test on an optional string: `None` and `""` are falsy. -/
def pyTruthy : Option PyStr → Bool
  | none => false
  | some s => s ≠ []

/-- Decimal digits of a natural number (auxiliary, with fuel). -/
def natToStrAux : Nat → Nat → PyStr
  | 0, _ => []
  | f + 1, n =>
    if n < 10 then [Char.ofNat (48 + n)]
    else natToStrAux f (n / 10) ++ [Char.ofNat (48 + n % 10)]

/-- Python `str(n)` for a natural number `n`. -/
def natToStr (n : Nat) : PyStr := natToStrAux (n + 1) n

/-- Python `int(s)` on the digit strings the engine produces: a nonempty
all-digit string parses to its value, anything else raises `ValueError`
(codes never contain signs or whitespace, so this covers every reachable
call of `int` in the d'Aboville merge). -/
def pyInt (s : PyStr) : Except PyErr Nat :=
  if s ≠ [] ∧ s.all Char.isDigit then
    .ok (s.foldl (fun a c => a * 10 + (c.toNat - 48)) 0)
  else .error .valueError

/-- Python `s.split(".")` for a single-character separator (auxiliary). -/
def splitDotsAux : PyStr → PyStr → List PyStr
  | [], acc => [acc.reverse]
  | c :: cs, acc =>
    if c = '.' then acc.reverse :: splitDotsAux cs [] else splitDotsAux cs (c :: acc)

/-- Python `s.split(".")`. -/
def splitDots (s : PyStr) : List PyStr := splitDotsAux s []

/-! ## The external data store (collaborator)

`Person` and `Family` are opaque external entities reached through the
database accessors the filters use: `get_family_handle_list`,
`get_parent_family_handle_list`, `get_mother_handle`, `get_father_handle`,
`get_child_ref_list` (a child reference contributes its `.ref` handle). -/

/-- The accessors of a Gramps person used by the engine. -/
structure PersonData where
  /-- `person.get_family_handle_list()`: families the person heads. -/
  families : List String
  /-- `person.get_parent_family_handle_list()`: families the person is a child of. -/
  parentFamilies : List String
deriving DecidableEq, Repr

/-- The accessors of a Gramps family used by the engine. -/
structure FamilyData where
  /-- `family.get_mother_handle()` (`none` when absent). -/
  mother : Option String
  /-- `family.get_father_handle()` (`none` when absent). -/
  father : Option String
  /-- `family.get_child_ref_list()`, as the list of `.ref` handles, in list order. -/
  children : List String
deriving DecidableEq, Repr

/-- The collaborator database: total maps from handles to records, plus
Gramps-id resolution (`get_person_from_gramps_id`, used at setup). -/
structure DB where
  /-- `get_person_from_handle`. -/
  persons : String → PersonData
  /-- `get_family_from_handle`. -/
  families : String → FamilyData
  /-- `get_person_from_gramps_id`: maps an external id to a handle, if any. -/
  byId : String → Option String

/-! ## Python dicts as insertion-ordered association lists -/

/-- Dict lookup (`d.get(k)` / `d[k]` when present). -/
def alookup {α β : Type} [DecidableEq α] (m : List (α × β)) (k : α) : Option β :=
  match m.find? (fun p => p.1 = k) with
  | some p => some p.2
  | none => none

/-- Dict update `d[k] = v`: replaces in place if the key exists (keeping
insertion order, as Python dicts do), else appends. -/
def ainsert {α β : Type} [DecidableEq α] (m : List (α × β)) (k : α) (v : β) :
    List (α × β) :=
  if (m.find? (fun p => p.1 = k)).isSome then
    m.map (fun p => if p.1 = k then (k, v) else p)
  else m ++ [(k, v)]

/-- `self.dnumber.get(h)` where `h` is an optional handle (`get_mother_handle`
may return `None`, and `dict.get(None)` is `None`). -/
def dget (m : List (String × PyStr)) (k : Option String) : Option PyStr :=
  match k with
  | none => none
  | some s => alookup m s

/-- Python `max(self.map)`: the maximum key of the traversal-index dict.
(The source only evaluates it on a nonempty dict; `0` is the empty default.) -/
def maxKey (m : List (Nat × String)) : Nat :=
  (m.map Prod.fst).foldl Nat.max 0

/-! ## The engine state -/

/-- The mutable state of one report run: `self.map` (traversal index →
person handle), `self.gen_keys` (generation buckets), `self.dnumber`
(person handle → descendant code), and a proof-side visit log `trace`
recording `(index, generation)` at each recorded visit. -/
structure EngState where
  /-- `self.map`. -/
  map : List (Nat × String)
  /-- `self.gen_keys`. -/
  genKeys : List (List Nat)
  /-- `self.dnumber`. -/
  dnumber : List (String × PyStr)
  /-- Proof-side visit log, mirroring each `self.map` insertion. -/
  trace : List (Nat × Nat)
deriving DecidableEq, Repr

/-- The empty state built in `__init__` before any filter runs. -/
def emptyState : EngState := ⟨[], [], [], []⟩

/-- Append `index` to the bucket at a given position (auxiliary for
`self.gen_keys[cur_gen - 1].append(index)`). -/
def bucketAddAt : List (List Nat) → Nat → Nat → List (List Nat)
  | [], _, _ => []
  | b :: bs, 0, i => (b ++ [i]) :: bs
  | b :: bs, n + 1, i => b :: bucketAddAt bs n i

/-- The generation-bucket update shared by the three filters:
`if len(self.gen_keys) < cur_gen: self.gen_keys.append([index])
else: self.gen_keys[cur_gen - 1].append(index)`. -/
def bucketAdd (gk : List (List Nat)) (curGen index : Nat) : List (List Nat) :=
  if gk.length < curGen then gk ++ [[index]]
  else bucketAddAt gk (curGen - 1) index

/-- The visit bookkeeping shared verbatim by the three filters:
`self.map[index] = person_handle` followed by the generation-bucket update
(the `trace` entry is the proof-side log of the same event). -/
def recordVisit (s : EngState) (index : Nat) (h : String) (curGen : Nat) : EngState :=
  { s with
    map := ainsert s.map index h
    genKeys := bucketAdd s.genKeys curGen index
    trace := s.trace ++ [(index, curGen)] }

/-! ## Henry numbering (`apply_henry_filter`) -/

/-- `HENRY = "123456789ABCDEFGHIJKLMNOPQRSTUVWXYZ"`. -/
def HENRY : PyStr := "123456789ABCDEFGHIJKLMNOPQRSTUVWXYZ".toList

/-- `HENRY[index]`: in-range lookup yields the symbol, out of range raises
`IndexError`. -/
def henrySym (i : Nat) : Except PyErr Char :=
  match HENRY.get? i with
  | some c => .ok c
  | none => .error .indexError

/-- The Henry revisit policy (source lines 549–553): first assignment wins
unless the new code is lexicographically smaller
(`if self.dnumber[person_handle] > pid: self.dnumber[person_handle] = pid`). -/
def henryAssign (dn : List (String × PyStr)) (h : String) (pid : PyStr) :
    List (String × PyStr) :=
  match alookup dn h with
  | some old => if pyStrLt pid old then ainsert dn h pid else dn
  | none => ainsert dn h pid

/-- The child loop of `apply_henry_filter` (source lines 563–571), flattened
over the person's families exactly as the source iterates them: the sibling
ordinal `i` starts at 0 and accumulates across all families; each child is
visited with index `max(self.map) + 1` and code `pid + HENRY[i]`. -/
def henryKidsGo (visit : String → Nat → PyStr → EngState → Except PyErr EngState) :
    List String → Nat → PyStr → EngState → Except PyErr EngState
  | [], _, _, s => .ok s
  | c :: cs, i, pid, s =>
    match henrySym i with
    | .error e => .error e
    | .ok ch =>
      match visit c (maxKey s.map + 1) (pid ++ [ch]) s with
      | .error e => .error e
      | .ok s' => henryKidsGo visit cs (i + 1) pid s'

/-- All child handles of a person, in family order then child-list order,
exactly the iteration order of the nested loops in the filters. -/
def childrenOf (db : DB) (h : String) : List String :=
  (db.persons h).families.flatMap (fun fh => (db.families fh).children)

/-- `apply_henry_filter(person_handle, index, pid, cur_gen)`, with explicit
fuel (always ample at the entry point): stop on a falsy handle or once
`cur_gen > max_generations`; otherwise apply the Henry revisit policy to
`self.dnumber`, record the visit, and recurse over all children. -/
def henryFilterF (db : DB) (maxGen : Nat) :
    Nat → String → Nat → PyStr → Nat → EngState → Except PyErr EngState
  | 0, _, _, _, _, s => .ok s
  | fuel + 1, h, index, pid, curGen, s =>
    if h = "" ∨ curGen > maxGen then .ok s
    else
      let s1 : EngState := { s with dnumber := henryAssign s.dnumber h pid }
      let s2 := recordVisit s1 index h curGen
      henryKidsGo (fun c ix pd st => henryFilterF db maxGen fuel c ix pd (curGen + 1) st)
        (childrenOf db h) 0 pid s2

/-- The Henry run performed by `__init__`:
`self.apply_henry_filter(center_person_handle, 1, "1")`. -/
def henryRun (db : DB) (maxGen : Nat) (root : String) : Except PyErr EngState :=
  henryFilterF db maxGen (maxGen + 1) root 1 "1".toList 1 emptyState

/-! ## Modified Henry numbering (`apply_mhenry_filter`) -/

/-- The `mhenry()` convenience function:
`str(index) if index < 10 else "(" + str(index) + ")"`. -/
def mhenrySym (i : Nat) : PyStr :=
  if i < 10 then natToStr i else '(' :: (natToStr i ++ [')'])

/-- The child loop of `apply_mhenry_filter` (source lines 591–599): the
sibling ordinal starts at 1 and accumulates across families, and each child
is visited through `apply_henry_filter` (as in the source) with code
`pid + mhenry()`. -/
def mhenryKidsGo (visit : String → Nat → PyStr → EngState → Except PyErr EngState) :
    List String → Nat → PyStr → EngState → Except PyErr EngState
  | [], _, _, s => .ok s
  | c :: cs, i, pid, s =>
    match visit c (maxKey s.map + 1) (pid ++ mhenrySym i) s with
    | .error e => .error e
    | .ok s' => mhenryKidsGo visit cs (i + 1) pid s'

/-- `apply_mhenry_filter(person_handle, index, pid, cur_gen)`: overwrite
`self.dnumber` unconditionally, record the visit, then recurse over children
via `apply_henry_filter` (exactly as the source does). -/
def mhenryFilterF (db : DB) (maxGen fuel : Nat) (h : String) (index : Nat)
    (pid : PyStr) (curGen : Nat) (s : EngState) : Except PyErr EngState :=
  if h = "" ∨ curGen > maxGen then .ok s
  else
    let s1 : EngState := { s with dnumber := ainsert s.dnumber h pid }
    let s2 := recordVisit s1 index h curGen
    mhenryKidsGo (fun c ix pd st => henryFilterF db maxGen fuel c ix pd (curGen + 1) st)
      (childrenOf db h) 1 pid s2

/-- The Modified Henry run performed by `__init__`:
`self.apply_mhenry_filter(center_person_handle, 1, "1")`. -/
def mhenryRun (db : DB) (maxGen : Nat) (root : String) : Except PyErr EngState :=
  mhenryFilterF db maxGen (maxGen + 1) root 1 "1".toList 1 emptyState

/-! ## d'Aboville numbering (`apply_daboville_filter`)

The number computation (source lines 619–687) walks the person's
parent-families, determines `first_num` / `last_num` from the two parents'
codes, and assembles the `number` string.  `first_num` and `last_num` are
Python locals that persist across iterations of that loop and raise
`UnboundLocalError` if read before any branch assigned them; they are
modelled as an `Option (Option PyStr × Option PyStr)` threaded through the
fold (`none` = still unbound). -/

/-- The segment-comparison loop of the merge (source lines 640–648): walk the
two dot-segment lists in parallel, parsing each segment with `int`;
`some true` means the mother's code had the smaller segment at the first
difference, `some false` the father's, `none` that the loop finished with no
difference (no `break`, so `first_num`/`last_num` are left untouched). -/
def dabSegWalk : List PyStr → List PyStr → Except PyErr (Option Bool)
  | m :: ms, d :: ds =>
    match pyInt m with
    | .error e => .error e
    | .ok mi =>
      match pyInt d with
      | .error e => .error e
      | .ok di =>
        if mi < di then .ok (some true)
        else if di < mi then .ok (some false)
        else dabSegWalk ms ds
  | _, _ => .ok none

/-- The `first_num`/`last_num` selection for one parent-family (source lines
630–654), given the values carried over from the previous family (`prev`,
`none` when still unbound): falsy codes pass through as written; two truthy
codes with equally many dot-segments are ordered by the numeric
segment-comparison loop; two truthy codes of different segment counts are
ordered by segment count (Python's stable `sorted` by `len(x.split("."))`). -/
def dabFirstLast (prev : Option (Option PyStr × Option PyStr))
    (motherNum fatherNum : Option PyStr) :
    Except PyErr (Option (Option PyStr × Option PyStr)) :=
  if ¬ pyTruthy motherNum ∧ ¬ pyTruthy fatherNum then
    .ok (some (motherNum, fatherNum))
  else if pyTruthy motherNum ∧ ¬ pyTruthy fatherNum then
    .ok (some (motherNum, fatherNum))
  else if pyTruthy fatherNum ∧ ¬ pyTruthy motherNum then
    .ok (some (fatherNum, motherNum))
  else
    let mn := motherNum.getD []
    let fn := fatherNum.getD []
    if (splitDots mn).length = (splitDots fn).length then
      match dabSegWalk (splitDots mn) (splitDots fn) with
      | .error e => .error e
      | .ok (some true) => .ok (some (some mn, some fn))
      | .ok (some false) => .ok (some (some fn, some mn))
      | .ok none => .ok prev
    else if (splitDots mn).length < (splitDots fn).length then
      .ok (some (some mn, some fn))
    else .ok (some (some fn, some mn))

/-- The character-walk of the double-relation merge (source lines 667–673):
`for idx, (x, y) in enumerate(zip(first_num, last_num))` appending each
common character to the number and stopping with `split_idx = idx` at the
first difference (`none` when the zip is exhausted with no difference).
Returns the appended common characters and `split_idx`. -/
def charWalk : PyStr → PyStr → Nat → PyStr × Option Nat
  | x :: xs, y :: ys, i =>
    if x = y then
      let r := charWalk xs ys (i + 1)
      (x :: r.1, r.2)
    else ([], some i)
  | _, _, _ => ([], none)

/-- Python `s[split_idx:]` where `split_idx` may be `None` (a `None` slice
bound means the whole string). -/
def pySliceFrom (s : PyStr) (i : Option Nat) : PyStr :=
  match i with
  | some n => s.drop n
  | none => s

/-- The double-relation merge text (source lines 666–677): the common leading
characters of the two codes, then `"({}).{}".format("|".join([first_num[split_idx:],
last_num[split_idx:]]), child_num)`. -/
def dabMergeCore (f l childNum : PyStr) : PyStr :=
  let w := charWalk f l 0
  w.1 ++ ('(' :: (pySliceFrom f w.2 ++ ('|' :: pySliceFrom l w.2) ++ [')', '.'])) ++ childNum

/-- The per-family contribution to `number` after `first_num`/`last_num` are
bound (source lines 664–682). -/
def dabFamilyCore (firstNum lastNum : Option PyStr) (childNum : PyStr) (curGen : Nat) :
    PyStr :=
  if pyTruthy firstNum ∧ pyTruthy lastNum then
    dabMergeCore (firstNum.getD []) (lastNum.getD []) childNum
  else if pyTruthy firstNum then
    firstNum.getD [] ++ ('.' :: childNum)
  else if curGen = 1 then childNum
  else []

/-- The multi-parent-family wrapper opened before each family's contribution
(source lines 656–662): `"{}{}:[".format(", " if fam_idx > 0 else "",
chr(ord("a") + (fam_idx % 26)))` when the person has several
parent-families, nothing otherwise. -/
def dabFamilyWrapOpen (multi : Bool) (famIdx : Nat) : PyStr :=
  if multi then
    (if famIdx > 0 then [',', ' '] else []) ++ [Char.ofNat (97 + famIdx % 26), ':', '[']
  else []

/-- The loop over a person's parent-families building `number`
(source lines 626–684). -/
def dabNumberGo (db : DB) (dn : List (String × PyStr)) (childNum : PyStr)
    (curGen : Nat) (multi : Bool) :
    List String → Nat → PyStr → Option (Option PyStr × Option PyStr) →
    Except PyErr PyStr
  | [], _, number, _ => .ok number
  | fh :: rest, famIdx, number, prev =>
    let fam := db.families fh
    let motherNum := dget dn fam.mother
    let fatherNum := dget dn fam.father
    match dabFirstLast prev motherNum fatherNum with
    | .error e => .error e
    | .ok flOpt =>
      let number1 := number ++ dabFamilyWrapOpen multi famIdx
      match flOpt with
      | none => .error .unboundLocal
      | some fl =>
        let number2 := number1 ++ dabFamilyCore fl.1 fl.2 childNum curGen
        let number3 := number2 ++ (if multi then [']'] else [])
        dabNumberGo db dn childNum curGen multi rest (famIdx + 1) number3 (some fl)

/-- The full `number` computation of `apply_daboville_filter` (source lines
619–686): the person's code, derived from the codes its parents already have
in `self.dnumber`, wrapped in `{ }` when the person has several
parent-families. -/
def dabNumber (db : DB) (dn : List (String × PyStr)) (parentFams : List String)
    (childNum : PyStr) (curGen : Nat) : Except PyErr PyStr :=
  let multi : Bool := decide (1 < parentFams.length)
  match dabNumberGo db dn childNum curGen multi parentFams 0
      (if multi then [Char.ofNat 123] else []) none with
  | .error e => .error e
  | .ok n => .ok (n ++ (if multi then [Char.ofNat 125] else []))

/-- The inner child loop of `apply_daboville_filter` (source lines 699–708):
each child is visited with index `max(self.map) + 1` and ordinal
`index if not double_fam else double_fam_index`; `index` advances only in
ordinary families, `double_fam_index` only in double families.  Returns the
updated state together with the value of `index` after the family. -/
def dabChildrenGo (visit : String → Nat → PyStr → EngState → Except PyErr EngState) :
    List String → Bool → Nat → Nat → EngState → Except PyErr (EngState × Nat)
  | [], _, index, _, s => .ok (s, index)
  | c :: cs, doubleFam, index, dfIdx, s =>
    match visit c (maxKey s.map + 1) (natToStr (if doubleFam then dfIdx else index)) s with
    | .error e => .error e
    | .ok s' =>
      dabChildrenGo visit cs doubleFam (if doubleFam then index else index + 1)
        (if doubleFam then dfIdx + 1 else dfIdx) s'

/-- The loop over the person's own families (source lines 689–708): for each
family, `double_fam` is true when both its parents already have truthy codes
in `self.dnumber` at that moment; `double_fam_index` restarts at 1 for each
family while `index` carries across families. -/
def dabFamsGo (visit : String → Nat → PyStr → EngState → Except PyErr EngState)
    (db : DB) : List String → Nat → EngState → Except PyErr EngState
  | [], _, s => .ok s
  | fh :: rest, index, s =>
    let fam := db.families fh
    let motherNum := dget s.dnumber fam.mother
    let fatherNum := dget s.dnumber fam.father
    let doubleFam := pyTruthy motherNum && pyTruthy fatherNum
    match dabChildrenGo visit fam.children doubleFam index 1 s with
    | .error e => .error e
    | .ok (s', index') => dabFamsGo visit db rest index' s'

/-- `apply_daboville_filter(person_handle, index, child_num, cur_gen)`, with
explicit fuel (always ample at the entry point): stop on a falsy handle,
once `cur_gen > max_generations`, or when `self.map.get(index)` already is
this person; otherwise record the visit, compute and store the person's
`number`, and recurse over the person's families. -/
def dabFilterF (db : DB) (maxGen : Nat) :
    Nat → String → Nat → PyStr → Nat → EngState → Except PyErr EngState
  | 0, _, _, _, _, s => .ok s
  | fuel + 1, h, index, childNum, curGen, s =>
    if h = "" ∨ curGen > maxGen ∨ alookup s.map index = some h then .ok s
    else
      let s1 := recordVisit s index h curGen
      match dabNumber db s1.dnumber ((db.persons h).parentFamilies) childNum curGen with
      | .error e => .error e
      | .ok number =>
        let s2 : EngState := { s1 with dnumber := ainsert s1.dnumber h number }
        dabFamsGo (fun c ix cn st => dabFilterF db maxGen fuel c ix cn (curGen + 1) st)
          db ((db.persons h).families) 1 s2

/-- The d'Aboville run performed by `__init__`:
`self.apply_daboville_filter(center_person_handle, 1, "1")`. -/
def dabRun (db : DB) (maxGen : Nat) (root : String) : Except PyErr EngState :=
  dabFilterF db maxGen (maxGen + 1) root 1 "1".toList 1 emptyState

/-! ## Report setup (`CompactDetailedDescendantReport.__init__`) -/

/-- Fatal setup failures of the report constructor. -/
inductive SetupErr where
  /-- `ReportError(_("Person %s is not in the Database") % pid)`. -/
  | reportError (msg : String) : SetupErr
  /-- `AttributeError("no such numbering: '%s'" % self.numbering)`. -/
  | attributeError (msg : String) : SetupErr
  /-- An uncaught Python exception escaping a filter run. -/
  | pyExc (e : PyErr) : SetupErr
deriving DecidableEq, Repr

/-- The numbering dispatch of `__init__` (source lines 510–517): three
recognized scheme names, anything else raises `AttributeError` naming the
offending value. -/
def applyNumbering (db : DB) (maxGen : Nat) (rootHandle : String)
    (numbering : String) : Except SetupErr EngState :=
  if numbering = "Henry" then (henryRun db maxGen rootHandle).mapError .pyExc
  else if numbering = "Modified Henry" then (mhenryRun db maxGen rootHandle).mapError .pyExc
  else if numbering = "d'Aboville" then (dabRun db maxGen rootHandle).mapError .pyExc
  else .error (.attributeError ("no such numbering: '" ++ numbering ++ "'"))

/-- The report options consumed by `__init__` (the `structure` menu option is
registered by `add_menu_options` but, as in the source, never read back by
the report). -/
structure ReportOptions where
  /-- `gen`: maximum number of generations. -/
  gen : Nat
  /-- `numbering`: the numbering-scheme name. -/
  numbering : String
  /-- `pid`: the Gramps id of the center person. -/
  pid : String
  /-- `structure`: the report-structure mode. -/
  structureMode : String
deriving DecidableEq, Repr

/-- The validation and traversal part of `__init__`: resolve the center
person (fatal `ReportError` when the id does not resolve), then dispatch on
the numbering scheme.  No other option is validated; in particular the
`structure` option is never consulted. -/
def reportSetup (db : DB) (o : ReportOptions) : Except SetupErr EngState :=
  match db.byId o.pid with
  | none => .error (.reportError ("Person " ++ o.pid ++ " is not in the Database"))
  | some h => applyNumbering db o.gen h o.numbering

/-! ## Concrete databases used in counterexamples and witnesses -/

/-- A database with a single person `R` (no families, no parent-families),
reachable from the Gramps id `I1`. -/
def dbSolo : DB where
  persons := fun _ => ⟨[], []⟩
  families := fun _ => ⟨none, none, []⟩
  byId := fun i => if i = "I1" then some "R" else none

/-- Root `R` with one child `C`; `C` heads one family with ten children
`K1`…`K10`. -/
def dbTen : DB where
  persons := fun h =>
    if h = "R" then ⟨["F1"], []⟩
    else if h = "C" then ⟨["F2"], ["F1"]⟩
    else ⟨[], ["F2"]⟩
  families := fun f =>
    if f = "F1" then ⟨some "R", none, ["C"]⟩
    else if f = "F2" then ⟨some "C", none,
      ["K1", "K2", "K3", "K4", "K5", "K6", "K7", "K8", "K9", "K10"]⟩
    else ⟨none, none, []⟩
  byId := fun _ => none

/-- Root `R` (child of the parentless family `F0`, so its d'Aboville code is
the seed) heading two families: `F1` with children `A`, `B` and `F2` with
child `C`.  The spouses `S1`, `S2` never receive codes, so neither family is
a "double family". -/
def dbTwoFam : DB where
  persons := fun h =>
    if h = "R" then ⟨["F1", "F2"], ["F0"]⟩
    else if h = "A" then ⟨[], ["F1"]⟩
    else if h = "B" then ⟨[], ["F1"]⟩
    else if h = "C" then ⟨[], ["F2"]⟩
    else ⟨[], []⟩
  families := fun f =>
    if f = "F0" then ⟨none, none, ["R"]⟩
    else if f = "F1" then ⟨some "R", some "S1", ["A", "B"]⟩
    else if f = "F2" then ⟨some "R", some "S2", ["C"]⟩
    else ⟨none, none, []⟩
  byId := fun _ => none

/-- A lineage loop: root `R` has children `A` and `B`, who together head the
family `FAB` with one child `X` — so `X` is related to `R` through two
lineages and `FAB` becomes a "double family" on the second visit. -/
def dbLoop : DB where
  persons := fun h =>
    if h = "R" then ⟨["FR"], ["F0"]⟩
    else if h = "A" then ⟨["FAB"], ["FR"]⟩
    else if h = "B" then ⟨["FAB"], ["FR"]⟩
    else if h = "X" then ⟨[], ["FAB"]⟩
    else ⟨[], []⟩
  families := fun f =>
    if f = "F0" then ⟨none, none, ["R"]⟩
    else if f = "FR" then ⟨some "R", none, ["A", "B"]⟩
    else if f = "FAB" then ⟨some "A", some "B", ["X"]⟩
    else ⟨none, none, []⟩
  byId := fun _ => none

/-- A person `X` whose single parent-family `FX` has parents `M` and `D`. -/
def dbMerge : DB where
  persons := fun h =>
    if h = "X" then ⟨[], ["FX"]⟩
    else ⟨[], []⟩
  families := fun f =>
    if f = "FX" then ⟨some "M", some "D", ["X"]⟩
    else ⟨none, none, []⟩
  byId := fun _ => none

/-- A traversal state in which the two parents `M` and `D` of `X`'s
parent-family already carry the codes `"1.2"` and `"2.1"` (the situation of
the spec's d'Aboville multi-parent example). -/
def mergeState : EngState where
  map := [(1, "Q"), (2, "M"), (3, "D")]
  genKeys := [[1], [2, 3]]
  dnumber := [("M", "1.2".toList), ("D", "2.1".toList)]
  trace := [(1, 1), (2, 2), (3, 2)]

/-- Root `R` heading one family with 36 children `L1`…`L36` (one more child
than `HENRY` has symbols). -/
def db36 : DB where
  persons := fun h =>
    if h = "R" then ⟨["F1"], []⟩
    else ⟨[], ["F1"]⟩
  families := fun f =>
    if f = "F1" then ⟨some "R", none,
      ["L1", "L2", "L3", "L4", "L5", "L6", "L7", "L8", "L9", "L10",
       "L11", "L12", "L13", "L14", "L15", "L16", "L17", "L18", "L19", "L20",
       "L21", "L22", "L23", "L24", "L25", "L26", "L27", "L28", "L29", "L30",
       "L31", "L32", "L33", "L34", "L35", "L36"]⟩
    else ⟨none, none, []⟩
  byId := fun _ => none

deriving instance DecidableEq for Except

example : (dabFilterF dbMerge 9 5 "X" 4 "1".toList 3 mergeState).map
    (fun s => alookup s.dnumber "X") = .ok (some "(1.2|2.1).1".toList) := by decide

example : (dabRun dbTwoFam 2 "R").map (fun s => alookup s.dnumber "C")
    = .ok (some "1.3".toList) := by decide

example : (mhenryRun dbTen 3 "R").map (fun s => alookup s.dnumber "K10")
    = .ok (some "11A".toList) := by decide

example : (dabRun dbLoop 5 "R").map (fun s => alookup s.dnumber "X")
    = .ok (some "1.(1|2).1".toList) := by decide

example : henryRun db36 2 "R" = .error .indexError := by decide

example : (dabRun dbSolo 1 "R").map (fun s => alookup s.dnumber "R")
    = .ok (some []) := by decide

example : (henryRun dbSolo 1 "R").map (fun s => alookup s.dnumber "R")
    = .ok (some "1".toList) := by decide

/-- The structural invariant of the traversal state: traversal indices are
exactly `1..N` in insertion order, the visit log mirrors them, every logged
generation is within the bucket list, and bucket `g` holds exactly the
indices visited at generation `g + 1`, in traversal order. -/
def GoodState (s : EngState) : Prop :=
  s.map.map Prod.fst = List.range' 1 s.map.length
  ∧ s.trace.map Prod.fst = s.map.map Prod.fst
  ∧ (∀ p ∈ s.trace, 1 ≤ p.2 ∧ p.2 ≤ s.genKeys.length)
  ∧ ∀ g, g < s.genKeys.length →
      s.genKeys.get? g = some ((s.trace.filter (fun p => p.2 = g + 1)).map Prod.fst)

/-- Specification-side shape of a Henry code: the seed `"1"`, or some string
extended by exactly one symbol of the `HENRY` alphabet. -/
def henryCodeShape (code : PyStr) : Prop :=
  code = "1".toList ∨ ∃ q c, c ∈ HENRY ∧ code = q ++ [c]

/-! ## Small facts about the embedded operations -/

theorem pyTruthy_some (s : PyStr) : pyTruthy (some s) = decide (s ≠ []) := rfl

/-! ## Claim C1: the d'Aboville multi-parent merge -/

/-- C1, counterexample.  The claim asserts that when both parents of a
visited person's parent-family already have codes, the merged code keeps
the common leading dot-segments and appends the diverging suffixes sorted,
so that for parent codes `"1.2"` and `"2.1"` the merged code has the form
`"(2|1).1"`.  On the code, visiting `X` whose parents `M` and `D` carry the
codes `"1.2"` and `"2.1"` stores the code `"(1.2|2.1).1"`, which is not of
that form: the comparison walks characters (not dot-segments) and the two
full suffixes are joined in the order chosen by the parent-code comparison,
not sorted as segments. -/
theorem c1_merge_counterexample :
    (dabFilterF dbMerge 9 5 "X" 4 "1".toList 3 mergeState).map
      (fun s => alookup s.dnumber "X") = .ok (some "(1.2|2.1).1".toList)
    ∧ some "(1.2|2.1).1".toList ≠ some "(2|1).1".toList := by
  constructor
  · decide
  · decide

/-- C1, amended.  For a visited person with a single parent-family whose two
parents' codes are both present and truthy, the merged code is: the common
leading *characters* of the two codes (`first_num`/`last_num` as ordered by
the engine's own parent-code comparison `dabFirstLast`), then `(`, the
remainder of `first_num` from the first differing character, `|`, the
remainder of `last_num`, `).`, and the child ordinal — `dabMergeCore`.  In
particular for parent codes `"1.2"` and `"2.1"` the merged code is
`"(1.2|2.1).1"`. -/
theorem c1_merge_amended (db : DB) (dn : List (String × PyStr)) (fh : String)
    (M D : String) (mc fc a b childNum : PyStr) (curGen : Nat)
    (hm : (db.families fh).mother = some M)
    (hf : (db.families fh).father = some D)
    (hM : alookup dn M = some mc) (hD : alookup dn D = some fc)
    (hsel : dabFirstLast none (some mc) (some fc) = .ok (some (some a, some b)))
    (ha : a ≠ []) (hb : b ≠ []) :
    dabNumber db dn [fh] childNum curGen = .ok (dabMergeCore a b childNum) := by
  simp only [dabNumber, dabNumberGo, dget, hm, hf, hM, hD, hsel]
  simp [dabFamilyWrapOpen, dabFamilyCore, pyTruthy_some, ha, hb]

/-- C1, witness for the amended theorem: the spec's own example instance. -/
theorem c1_merge_amended_witness :
    dabNumber dbMerge [("M", "1.2".toList), ("D", "2.1".toList)] ["FX"] "1".toList 3
      = .ok (dabMergeCore "1.2".toList "2.1".toList "1".toList) :=
  c1_merge_amended dbMerge _ "FX" "M" "D" "1.2".toList "2.1".toList
    "1.2".toList "2.1".toList "1".toList 3 (by decide) (by decide) (by decide)
    (by decide) (by decide) (by decide) (by decide)

/-! ## Claim C2: the root person's code -/

/-- C2.  The claim says the root always ends with the seed code `"1"` in the
dnumber map, for every scheme, regardless of how many parent-families the
root has.  Henry and Modified Henry do seed the root with `"1"`, but under
d'Aboville a root with *zero* parent-families ends with the empty-string
code: the `number` accumulator starts empty and the loop over parent
families (the only place the seed `child_num` is appended at generation 1)
never runs.  The spec's stated intent (step 1 of the common algorithm and
§8) is that the root receive the seed code, so this is recorded as a code
bug, evaluated here at the failing input. -/
theorem c2_root_seed_code_bug :
    (henryRun dbSolo 1 "R").map (fun s => alookup s.dnumber "R")
        = .ok (some "1".toList)
    ∧ (mhenryRun dbSolo 1 "R").map (fun s => alookup s.dnumber "R")
        = .ok (some "1".toList)
    ∧ (dabRun dbSolo 1 "R").map (fun s => alookup s.dnumber "R")
        = .ok (some [])
    ∧ some ([] : PyStr) ≠ some "1".toList := by
  refine ⟨by decide, by decide, by decide, by decide⟩

/-! ## Claim C4: Modified Henry ordinals below the first generation -/

/-- C4.  The claim (and the spec's §4.1 table, which the spec instructs to
treat as the intent) requires every Modified-Henry child code to extend the
parent's code with the Modified-Henry symbol — `"(10)"` for ordinal 10 — at
*every* depth.  The code's `apply_mhenry_filter` recurses through
`apply_henry_filter`, so from the grandchildren on the Henry alphabet is
used instead: in `dbTen`, the tenth child of the root's child `C` (code
`"11"`) receives `"11A"` (Henry symbol `A` for ordinal 10) where the
Modified-Henry rule `parent_code + symbol[ordinal]` would give `"11(10)"`. -/
theorem c4_mhenry_ordinal_code_bug :
    (mhenryRun dbTen 3 "R").map (fun s => alookup s.dnumber "K10")
        = .ok (some "11A".toList)
    ∧ mhenrySym 10 = "(10)".toList
    ∧ some "11A".toList ≠ some ("11".toList ++ mhenrySym 10) := by
  refine ⟨by decide, by decide, by decide⟩

/-! ## Claim C5: the Record scheme -/

/-- C5, counterexample.  The claim says the engine accepts Record as one of
four schemes and completes a traversal under it.  The dispatch in
`__init__` recognizes only Henry, Modified Henry and d'Aboville; scheme
`"Record"` raises `AttributeError` naming the value before any traversal. -/
theorem c5_record_counterexample :
    applyNumbering dbSolo 1 "R" "Record"
      = .error (.attributeError "no such numbering: 'Record'") := by
  decide

/-- C5, amended.  The Record (Modified Register) scheme is not supported:
for every database, depth bound and root, selecting `"Record"` aborts at
setup with `AttributeError("no such numbering: 'Record'")`; only Henry,
Modified Henry and d'Aboville are dispatched. -/
theorem c5_record_amended (db : DB) (maxGen : Nat) (root : String) :
    applyNumbering db maxGen root "Record"
      = .error (.attributeError "no such numbering: 'Record'") := by
  rfl

/-! ## Claim C7: d'Aboville sibling ordinals across families -/

/-- C7, counterexample.  The claim says the sibling ordinal resets to 1 at
the start of each family a person heads, so the first child of a second
family gets ordinal 1.  In `dbTwoFam` the root heads two ordinary families,
`F1` with children `A`, `B` and `F2` with child `C`; the code gives `C` the
code `"1.3"` (the ordinal counter carries across families), not `"1.1"`. -/
theorem c7_ordinal_counterexample :
    (dabRun dbTwoFam 2 "R").map (fun s => alookup s.dnumber "C")
        = .ok (some "1.3".toList)
    ∧ some "1.3".toList ≠ some "1.1".toList := by
  refine ⟨by decide, by decide⟩

/-- C7, amended.  Sibling ordinals are 1-based but *cumulative* across all
of a person's ordinary families: within an ordinary (non-double) family each
child is numbered with the running counter `index`, which advances by one
per child and carries over to the next family; only for a "double family"
(both of its parents already hold truthy codes) does the separate counter
`double_fam_index` restart at 1 for that family, advancing without touching
the cumulative counter.  Concretely, in `dbTwoFam` the single child of the
root's second family gets ordinal 3, and in `dbLoop` the doubly-related
child `X` is renumbered with ordinal 1 inside the double family `FAB`. -/
theorem c7_ordinal_amended :
    (∀ visit c cs index dfIdx s s₁,
      visit c (maxKey s.map + 1) (natToStr index) s = .ok s₁ →
      dabChildrenGo visit (c :: cs) false index dfIdx s
        = dabChildrenGo visit cs false (index + 1) dfIdx s₁)
    ∧ (∀ visit c cs index dfIdx s s₁,
      visit c (maxKey s.map + 1) (natToStr dfIdx) s = .ok s₁ →
      dabChildrenGo visit (c :: cs) true index dfIdx s
        = dabChildrenGo visit cs true index (dfIdx + 1) s₁)
    ∧ (∀ visit db fh rest index s s₁ index₁,
      dabChildrenGo visit (db.families fh).children
          (pyTruthy (dget s.dnumber (db.families fh).mother)
            && pyTruthy (dget s.dnumber (db.families fh).father)) index 1 s
        = .ok (s₁, index₁) →
      dabFamsGo visit db (fh :: rest) index s = dabFamsGo visit db rest index₁ s₁)
    ∧ (dabRun dbTwoFam 2 "R").map (fun s => alookup s.dnumber "C")
        = .ok (some "1.3".toList)
    ∧ (dabRun dbLoop 5 "R").map (fun s => alookup s.dnumber "X")
        = .ok (some "1.(1|2).1".toList) := by
  refine ⟨?_, ?_, ?_, by decide, by decide⟩
  · intro visit c cs index dfIdx s s₁ hv
    simp [dabChildrenGo, hv]
  · intro visit c cs index dfIdx s s₁ hv
    simp [dabChildrenGo, hv]
  · intro visit db fh rest index s s₁ index₁ hv
    simp [dabFamsGo, hv]

/-- C7, witness for the amended theorem: one concrete step of each kind. -/
theorem c7_ordinal_amended_witness :
    dabChildrenGo (fun _ _ _ st => .ok st) ["A", "B"] false 3 1 emptyState
      = dabChildrenGo (fun _ _ _ st => .ok st) ["B"] false 4 1 emptyState :=
  c7_ordinal_amended.1 (fun _ _ _ st => .ok st) "A" ["B"] 3 1 emptyState
    emptyState rfl

/-! ## Claim C9: configuration errors at setup -/

/-- C9, counterexample.  The claim says an unknown report-structure mode also
causes a fatal setup error.  The `structure` option is registered in the
menu but never read back by the report: setup with the unknown structure
mode `"bogus"` (and an otherwise valid configuration) succeeds. -/
theorem c9_structure_counterexample :
    reportSetup dbSolo ⟨1, "d'Aboville", "I1", "bogus"⟩
      = .ok ⟨[(1, "R")], [[1]], [("R", [])], [(1, 1)]⟩ := by
  decide

/-- C9, amended.  An unknown numbering-scheme name is fatal at setup, raising
`AttributeError` with a message naming the offending value (after the center
person resolves); the report-structure mode, by contrast, is never consulted,
so the setup outcome is entirely independent of it and an unknown structure
mode causes no error. -/
theorem c9_setup_errors_amended :
    (∀ db o h, db.byId o.pid = some h →
      o.numbering ≠ "Henry" → o.numbering ≠ "Modified Henry" →
      o.numbering ≠ "d'Aboville" →
      reportSetup db o
        = .error (.attributeError ("no such numbering: '" ++ o.numbering ++ "'")))
    ∧ (∀ db o sm,
      reportSetup db { o with structureMode := sm } = reportSetup db o) := by
  constructor
  · intro db o h hpid h1 h2 h3
    simp [reportSetup, hpid, applyNumbering, h1, h2, h3]
  · intro db o sm
    rfl

/-- C9, witness for the amended theorem: scheme `"Record"` with a resolvable
center person aborts with the descriptive `AttributeError`. -/
theorem c9_setup_errors_amended_witness :
    reportSetup dbSolo ⟨1, "Record", "I1", "by generation"⟩
      = .error (.attributeError "no such numbering: 'Record'") :=
  c9_setup_errors_amended.1 dbSolo ⟨1, "Record", "I1", "by generation"⟩ "R"
    rfl (by decide) (by decide) (by decide)

/-! ## Guard behavior of the three filters -/

/-- Past the generation bound every filter returns the state unchanged. -/
lemma henryFilterF_stop (db : DB) (maxGen fuel : Nat) (h : String) (ix : Nat)
    (pid : PyStr) (g : Nat) (s : EngState) (hg : maxGen < g) :
    henryFilterF db maxGen fuel h ix pid g s = .ok s := by
  cases fuel with
  | zero => rfl
  | succ f => simp [henryFilterF, hg]

/-- Past the generation bound `apply_mhenry_filter` returns the state unchanged. -/
lemma mhenryFilterF_stop (db : DB) (maxGen fuel : Nat) (h : String) (ix : Nat)
    (pid : PyStr) (g : Nat) (s : EngState) (hg : maxGen < g) :
    mhenryFilterF db maxGen fuel h ix pid g s = .ok s := by
  simp [mhenryFilterF, hg]

/-- Past the generation bound `apply_daboville_filter` returns the state unchanged. -/
lemma dabFilterF_stop (db : DB) (maxGen fuel : Nat) (h : String) (ix : Nat)
    (cn : PyStr) (g : Nat) (s : EngState) (hg : maxGen < g) :
    dabFilterF db maxGen fuel h ix cn g s = .ok s := by
  cases fuel with
  | zero => rfl
  | succ f => simp [dabFilterF, hg]

/-! ## Child loops under a visit that does nothing

When every recursive visit returns its state unchanged (as happens one past
the generation bound), the child loops leave the state unchanged as well. -/

lemma henryKidsGo_id (visit : String → Nat → PyStr → EngState → Except PyErr EngState)
    (hv : ∀ c ix pd st, visit c ix pd st = .ok st) :
    ∀ cs i pid s s', henryKidsGo visit cs i pid s = .ok s' → s' = s := by
  intro cs
  induction cs with
  | nil => intro i pid s s' hr; cases hr; rfl
  | cons c cs ih =>
    intro i pid s s' hr
    rw [henryKidsGo] at hr
    cases heq : henrySym i with
    | error e => rw [heq] at hr; cases hr
    | ok ch =>
      rw [heq] at hr
      simp only [hv] at hr
      exact ih (i + 1) pid s s' hr

lemma mhenryKidsGo_id (visit : String → Nat → PyStr → EngState → Except PyErr EngState)
    (hv : ∀ c ix pd st, visit c ix pd st = .ok st) :
    ∀ cs i pid s, mhenryKidsGo visit cs i pid s = .ok s := by
  intro cs
  induction cs with
  | nil => intro i pid s; rfl
  | cons c cs ih => intro i pid s; rw [mhenryKidsGo, hv]; exact ih (i + 1) pid s

lemma dabChildrenGo_id (visit : String → Nat → PyStr → EngState → Except PyErr EngState)
    (hv : ∀ c ix pd st, visit c ix pd st = .ok st) :
    ∀ cs dfam idx dfIdx s, ∃ k, dabChildrenGo visit cs dfam idx dfIdx s = .ok (s, k) := by
  intro cs
  induction cs with
  | nil => intro dfam idx dfIdx s; exact ⟨idx, rfl⟩
  | cons c cs ih =>
    intro dfam idx dfIdx s
    rw [dabChildrenGo, hv]
    exact ih dfam _ _ s

lemma dabFamsGo_id (visit : String → Nat → PyStr → EngState → Except PyErr EngState)
    (db : DB) (hv : ∀ c ix pd st, visit c ix pd st = .ok st) :
    ∀ fams idx s, dabFamsGo visit db fams idx s = .ok s := by
  intro fams
  induction fams with
  | nil => intro idx s; rfl
  | cons fh rest ih =>
    intro idx s
    obtain ⟨k, hk⟩ := dabChildrenGo_id visit hv (db.families fh).children
      (pyTruthy (dget s.dnumber (db.families fh).mother)
        && pyTruthy (dget s.dnumber (db.families fh).father)) idx 1 s
    rw [dabFamsGo, hk]
    exact ih k s

/-- The d'Aboville `number` computation never fails while `self.dnumber` is
still empty (every parent lookup is `None`, so the very first branch binds
`first_num`/`last_num`). -/
lemma dabNumberGo_empty (db : DB) (cn : PyStr) (g : Nat) (multi : Bool) :
    ∀ fams famIdx number prev,
      ∃ n, dabNumberGo db [] cn g multi fams famIdx number prev = .ok n := by
  intro fams
  induction fams with
  | nil => intro famIdx number prev; exact ⟨number, rfl⟩
  | cons fh rest ih =>
    intro famIdx number prev
    have h1 : ∀ k, dget [] k = none := by intro k; cases k <;> rfl
    rw [dabNumberGo, h1, h1]
    have h2 : dabFirstLast prev none none = .ok (some (none, none)) := rfl
    rw [h2]
    exact ih (famIdx + 1) _ _

/-! ## Claim C8: the depth bound -/

/-- C8.  Recursion stops as soon as the current generation exceeds
`max_generations` (for all three filters, any arguments and any state), and
with `max_generations = 1` only the root is visited: it gets traversal index
1, the single generation bucket `[[1]]`, and it is the only key of the
dnumber map — no child is assigned an index, a bucket entry or a code.
(For Henry the conclusion is stated for successful runs: a root with more
than 35 children aborts the whole run with an `IndexError`, assigning
nothing at all; Modified Henry and d'Aboville always succeed at depth 1.) -/
theorem c8_depth_bound :
    (∀ (db : DB) (maxGen fuel : Nat) (h : String) (ix : Nat) (pid : PyStr)
        (g : Nat) (s : EngState), maxGen < g →
      henryFilterF db maxGen fuel h ix pid g s = .ok s
        ∧ mhenryFilterF db maxGen fuel h ix pid g s = .ok s
        ∧ dabFilterF db maxGen fuel h ix pid g s = .ok s)
    ∧ (∀ (db : DB) (root : String), root ≠ "" →
      (∀ s', henryRun db 1 root = .ok s' →
          s' = ⟨[(1, root)], [[1]], [(root, "1".toList)], [(1, 1)]⟩)
        ∧ mhenryRun db 1 root
            = .ok ⟨[(1, root)], [[1]], [(root, "1".toList)], [(1, 1)]⟩
        ∧ (∀ s', dabRun db 1 root = .ok s' →
            s'.map = [(1, root)] ∧ s'.genKeys = [[1]]
              ∧ (∃ n, s'.dnumber = [(root, n)]) ∧ s'.trace = [(1, 1)])) := by
  constructor
  · intro db maxGen fuel h ix pid g s hg
    exact ⟨henryFilterF_stop db maxGen fuel h ix pid g s hg,
      mhenryFilterF_stop db maxGen fuel h ix pid g s hg,
      dabFilterF_stop db maxGen fuel h ix pid g s hg⟩
  · intro db root hroot
    have hvisit : ∀ c ix pd st,
        henryFilterF db 1 1 c ix pd 2 st = .ok st := by
      intro c ix pd st
      exact henryFilterF_stop db 1 1 c ix pd 2 st (by omega)
    have hvisitD : ∀ c ix pd st,
        dabFilterF db 1 1 c ix pd 2 st = .ok st := by
      intro c ix pd st
      exact dabFilterF_stop db 1 1 c ix pd 2 st (by omega)
    refine ⟨?_, ?_, ?_⟩
    · intro s' hr
      rw [henryRun] at hr
      rw [show (1 + 1 : Nat) = 1 + 1 from rfl] at hr
      rw [henryFilterF] at hr
      simp only [hroot, gt_iff_lt, Nat.lt_irrefl, or_self, if_false] at hr
      have := henryKidsGo_id _ hvisit (childrenOf db root) 0 "1".toList _ s' hr
      subst this
      rfl
    · rw [mhenryRun, mhenryFilterF]
      simp only [hroot, gt_iff_lt, Nat.lt_irrefl, or_self, if_false]
      rw [mhenryKidsGo_id (fun c ix pd st => henryFilterF db 1 (1 + 1) c ix pd (1 + 1) st)
        (fun c ix pd st => henryFilterF_stop db 1 (1 + 1) c ix pd (1 + 1) st (by omega))]
      rfl
    · intro s' hr
      rw [dabRun, dabFilterF] at hr
      rw [if_neg (by simp [hroot, emptyState, alookup])] at hr
      obtain ⟨n, hn⟩ := dabNumberGo_empty db "1".toList 1
        (decide (1 < (db.persons root).parentFamilies.length))
        (db.persons root).parentFamilies 0
        (if decide (1 < (db.persons root).parentFamilies.length) = true
          then [Char.ofNat 123] else []) none
      have hdn : (recordVisit emptyState 1 root 1).dnumber = [] := rfl
      simp only [dabNumber, hdn, hn] at hr
      rw [dabFamsGo_id (fun c ix cn st => dabFilterF db 1 1 c ix cn (1 + 1) st) db
        (fun c ix pd st => dabFilterF_stop db 1 1 c ix pd (1 + 1) st (by omega))] at hr
      cases hr
      exact ⟨rfl, rfl, ⟨_, rfl⟩, rfl⟩

/-- C8, witness: the single-person database at depth 1 under Modified Henry. -/
theorem c8_depth_bound_witness :
    mhenryRun dbSolo 1 "R" = .ok ⟨[(1, "R")], [[1]], [("R", "1".toList)], [(1, 1)]⟩ :=
  (c8_depth_bound.2 dbSolo "R" (by decide)).2.1

/-! ## Claim C10: the Henry symbol lookup -/

/-- The Henry alphabet lookup fails exactly past the 35 available symbols. -/
lemma henrySym_error (i : Nat) (hi : 35 ≤ i) : henrySym i = .error .indexError := by
  have hl : HENRY.length = 35 := rfl
  have hnone : HENRY.get? i = none := List.get?_eq_none.mpr (by omega)
  rw [henrySym, hnone]

/-- If every recursive visit succeeds and at most 35 ordinals remain, the
Henry child loop succeeds. -/
lemma henryKidsGo_isOk (visit : String → Nat → PyStr → EngState → Except PyErr EngState)
    (hv : ∀ c ix pd st, ∃ st', visit c ix pd st = .ok st') :
    ∀ cs i pid s, i + cs.length ≤ 35 →
      ∃ s', henryKidsGo visit cs i pid s = .ok s' := by
  intro cs
  induction cs with
  | nil => intro i pid s _; exact ⟨s, rfl⟩
  | cons c cs ih =>
    intro i pid s hb
    have hi : i < 35 := by simp only [List.length_cons] at hb; omega
    cases hg : HENRY.get? i with
    | none =>
      have := List.get?_eq_none.mp hg
      have hl : HENRY.length = 35 := rfl
      omega
    | some ch =>
      obtain ⟨st', hst⟩ := hv c (maxKey s.map + 1) (pid ++ [ch]) s
      rw [henryKidsGo]
      simp only [henrySym, hg, hst]
      exact ih (i + 1) pid st' (by simp only [List.length_cons] at hb; omega)

/-- With every person capped at 35 children, the Henry filter never raises. -/
lemma henryFilterF_isOk (db : DB) (maxGen : Nat)
    (hdb : ∀ h, (childrenOf db h).length ≤ 35) :
    ∀ fuel h ix pid g s, ∃ s', henryFilterF db maxGen fuel h ix pid g s = .ok s' := by
  intro fuel
  induction fuel with
  | zero => intro h ix pid g s; exact ⟨s, rfl⟩
  | succ f ih =>
    intro h ix pid g s
    rw [henryFilterF]
    by_cases hc : h = "" ∨ g > maxGen
    · rw [if_pos hc]; exact ⟨s, rfl⟩
    · rw [if_neg hc]
      exact henryKidsGo_isOk _ (fun c ix' pd st => ih c ix' pd (g + 1) st)
        (childrenOf db h) 0 pid _ (by simpa using hdb h)

/-- C10.  The Henry ordinal symbol is `HENRY[i]` for the 0-based ordinal `i`
accumulated across all of the visited person's families, over the
35-character alphabet: an in-range lookup returns exactly the alphabet
character, an ordinal of 35 or more raises `IndexError`.  Consequently a
whole Henry run succeeds whenever every person in the store has at most 35
children in total across their families (a superset of the visited
persons), and on `db36`, whose root has 36 children, the run raises an
uncaught `IndexError`. -/
theorem c10_henry_alphabet_safety :
    HENRY.length = 35
    ∧ (∀ i c, henrySym i = .ok c → HENRY.get? i = some c)
    ∧ (∀ i, 35 ≤ i → henrySym i = .error .indexError)
    ∧ (∀ (db : DB) (maxGen : Nat) (root : String),
        (∀ h, (childrenOf db h).length ≤ 35) →
        ∃ s', henryRun db maxGen root = .ok s')
    ∧ henryRun db36 2 "R" = .error .indexError := by
  refine ⟨rfl, ?_, henrySym_error, ?_, by decide⟩
  · intro i c hok
    rw [henrySym] at hok
    cases hg : HENRY.get? i with
    | none => rw [hg] at hok; cases hok
    | some ch => rw [hg] at hok; cases hok; rfl
  · intro db maxGen root hdb
    exact henryFilterF_isOk db maxGen hdb (maxGen + 1) root 1 "1".toList 1 emptyState

/-- C10, witness: a store whose persons all have at most 35 children. -/
theorem c10_henry_alphabet_safety_witness :
    ∃ s', henryRun dbSolo 1 "R" = .ok s' :=
  c10_henry_alphabet_safety.2.2.2.1 dbSolo 1 "R" (fun _ => Nat.zero_le 35)

/-! ## Association-list lemmas -/

lemma find?_key_none {α β : Type} [DecidableEq α] {m : List (α × β)} {k : α}
    (h : ∀ p ∈ m, p.1 ≠ k) : m.find? (fun p => p.1 = k) = none := by
  rw [List.find?_eq_none]
  intro p hp
  simpa using h p hp

lemma ainsert_fresh {α β : Type} [DecidableEq α] {m : List (α × β)} {k : α}
    (v : β) (h : ∀ p ∈ m, p.1 ≠ k) : ainsert m k v = m ++ [(k, v)] := by
  simp [ainsert, find?_key_none h]

lemma ainsert_cons_ne {α β : Type} [DecidableEq α] {p : α × β} {k : α}
    (m : List (α × β)) (v : β) (hp : p.1 ≠ k) :
    ainsert (p :: m) k v = p :: ainsert m k v := by
  have hfp : (fun q : α × β => decide (q.1 = k)) p = false := by simpa using hp
  simp only [ainsert, List.find?_cons, hfp]
  split
  · simp [hp]
  · rfl

lemma alookup_cons_ne {α β : Type} [DecidableEq α] {p : α × β} {k : α}
    (m : List (α × β)) (hp : p.1 ≠ k) : alookup (p :: m) k = alookup m k := by
  have hfp : (fun q : α × β => decide (q.1 = k)) p = false := by simpa using hp
  simp only [alookup, List.find?_cons, hfp]

lemma alookup_ainsert_self {α β : Type} [DecidableEq α] (m : List (α × β))
    (k : α) (v : β) : alookup (ainsert m k v) k = some v := by
  induction m with
  | nil => simp [ainsert, alookup]
  | cons p m ih =>
    by_cases hp : p.1 = k
    · have hfp : (fun q : α × β => decide (q.1 = k)) p = true := by simpa using hp
      simp only [ainsert, List.find?_cons, hfp, Option.isSome_some, if_true, List.map_cons,
        hp, if_pos]
      simp [alookup, List.find?_cons]
    · rw [ainsert_cons_ne m v hp, alookup_cons_ne _ hp]
      exact ih

/-- `henryAssign` on a fresh person inserts the proposed code. -/
lemma henryAssign_of_none {dn : List (String × PyStr)} {h : String} {pid : PyStr}
    (h0 : alookup dn h = none) : henryAssign dn h pid = ainsert dn h pid := by
  rw [henryAssign, h0]

/-- `henryAssign` on a revisit with a smaller proposed code overwrites. -/
lemma henryAssign_of_lt {dn : List (String × PyStr)} {h : String} {pid old : PyStr}
    (h0 : alookup dn h = some old) (hlt : pyStrLt pid old = true) :
    henryAssign dn h pid = ainsert dn h pid := by
  rw [henryAssign, h0]
  exact if_pos hlt

/-- `henryAssign` on a revisit with a larger-or-equal proposed code keeps the map. -/
lemma henryAssign_of_ge {dn : List (String × PyStr)} {h : String} {pid old : PyStr}
    (h0 : alookup dn h = some old) (hlt : ¬ pyStrLt pid old = true) :
    henryAssign dn h pid = dn := by
  rw [henryAssign, h0]
  exact if_neg hlt

/-- Every value of `ainsert m k v` is a value of `m` or is `v`. -/
lemma ainsert_values {α β : Type} [DecidableEq α] (P : β → Prop)
    {m : List (α × β)} {k : α} {v : β} (hm : ∀ p ∈ m, P p.2) (hv : P v) :
    ∀ p ∈ ainsert m k v, P p.2 := by
  intro p hp
  rw [ainsert] at hp
  split at hp
  · obtain ⟨q, hq, rfl⟩ := List.mem_map.mp hp
    split
    · exact hv
    · exact hm q hq
  · rcases List.mem_append.mp hp with h | h
    · exact hm p h
    · rcases List.mem_singleton.mp h with rfl
      exact hv

/-- The Henry revisit policy never stores a value that is neither the old
code nor the proposed one. -/
lemma henryAssign_values (P : PyStr → Prop) {dn : List (String × PyStr)}
    {h : String} {pid : PyStr} (hdn : ∀ p ∈ dn, P p.2) (hpid : P pid) :
    ∀ p ∈ henryAssign dn h pid, P p.2 := by
  cases h0 : alookup dn h with
  | none => rw [henryAssign_of_none h0]; exact ainsert_values P hdn hpid
  | some old =>
    by_cases hlt : pyStrLt pid old = true
    · rw [henryAssign_of_lt h0 hlt]; exact ainsert_values P hdn hpid
    · rw [henryAssign_of_ge h0 hlt]; exact hdn

/-! ## Claim C6: Henry code construction and revisit policy -/

/-- Codes stay `henryCodeShape` through the Henry child loop. -/
lemma henryKidsGo_codes (visit : String → Nat → PyStr → EngState → Except PyErr EngState)
    (hv : ∀ c ix pd st s', henryCodeShape pd →
      (∀ p ∈ st.dnumber, henryCodeShape p.2) → visit c ix pd st = .ok s' →
      ∀ p ∈ s'.dnumber, henryCodeShape p.2) :
    ∀ cs i pid s s', (∀ p ∈ s.dnumber, henryCodeShape p.2) →
      henryKidsGo visit cs i pid s = .ok s' →
      ∀ p ∈ s'.dnumber, henryCodeShape p.2 := by
  intro cs
  induction cs with
  | nil => intro i pid s s' hs hr; cases hr; exact hs
  | cons c cs ih =>
    intro i pid s s' hs hr
    rw [henryKidsGo] at hr
    cases hsym : henrySym i with
    | error e => rw [hsym] at hr; cases hr
    | ok ch =>
      rw [hsym] at hr
      have hch : ch ∈ HENRY := by
        rw [henrySym] at hsym
        cases hg : HENRY.get? i with
        | none => rw [hg] at hsym; cases hsym
        | some ch' =>
          rw [hg] at hsym
          cases hsym
          exact List.get?_mem hg
      simp only [] at hr
      cases hvr : visit c (maxKey s.map + 1) (pid ++ [ch]) s with
      | error e => rw [hvr] at hr; cases hr
      | ok s1 =>
        rw [hvr] at hr
        exact ih (i + 1) pid s1 s'
          (hv c (maxKey s.map + 1) (pid ++ [ch]) s s1
            (Or.inr ⟨pid, ch, hch, rfl⟩) hs hvr) hr

/-- Codes stay `henryCodeShape` through the whole Henry filter. -/
lemma henryFilterF_codes (db : DB) (maxGen : Nat) :
    ∀ fuel h ix pid g s s', henryCodeShape pid →
      (∀ p ∈ s.dnumber, henryCodeShape p.2) →
      henryFilterF db maxGen fuel h ix pid g s = .ok s' →
      ∀ p ∈ s'.dnumber, henryCodeShape p.2 := by
  intro fuel
  induction fuel with
  | zero => intro h ix pid g s s' _ hs hr; cases hr; exact hs
  | succ f ih =>
    intro h ix pid g s s' hpid hs hr
    rw [henryFilterF] at hr
    split at hr
    · cases hr; exact hs
    · exact henryKidsGo_codes _
        (fun c ix' pd st st' hpd hst hrun => ih c ix' pd (g + 1) st st' hpd hst hrun)
        (childrenOf db h) 0 pid _ s'
        (henryAssign_values henryCodeShape hs hpid) hr

/-- C6.  In the Henry scheme: (i, ii) on a revisit the lexicographically
smaller of the existing and the newly computed code is retained (first
assignment otherwise); (iii) every symbol the child loop can look up belongs
to the `HENRY` alphabet `1`–`9`, `A`–`Z`; and (iv) in any successful Henry
run every code in the final dnumber map is the root seed `"1"` or some
code extended by exactly one `HENRY` symbol — each child call receives
exactly `pid + HENRY[ordinal]`, the visited parent's code extended by one
alphabet symbol. -/
theorem c6_henry_extension_min :
    (∀ (dn : List (String × PyStr)) (h : String) (pid old : PyStr),
      alookup dn h = some old →
      alookup (henryAssign dn h pid) h
        = some (if pyStrLt pid old then pid else old))
    ∧ (∀ (dn : List (String × PyStr)) (h : String) (pid : PyStr),
      alookup dn h = none →
      alookup (henryAssign dn h pid) h = some pid)
    ∧ (∀ i c, henrySym i = .ok c → c ∈ HENRY)
    ∧ (∀ (db : DB) (maxGen : Nat) (root : String) (s' : EngState),
      henryRun db maxGen root = .ok s' →
      ∀ p ∈ s'.dnumber, henryCodeShape p.2) := by
  refine ⟨?_, ?_, ?_, ?_⟩
  · intro dn h pid old hold
    by_cases hlt : pyStrLt pid old = true
    · rw [henryAssign_of_lt hold hlt, if_pos hlt]
      exact alookup_ainsert_self dn h pid
    · rw [henryAssign_of_ge hold hlt, if_neg hlt]
      exact hold
  · intro dn h pid hnone
    rw [henryAssign_of_none hnone]
    exact alookup_ainsert_self dn h pid
  · intro i c hok
    rw [henrySym] at hok
    cases hg : HENRY.get? i with
    | none => rw [hg] at hok; cases hok
    | some ch => rw [hg] at hok; cases hok; exact List.get?_mem hg
  · intro db maxGen root s' hr
    exact henryFilterF_codes db maxGen (maxGen + 1) root 1 "1".toList 1 emptyState s'
      (Or.inl rfl) (by intro p hp; cases hp) hr

/-- C6, witness: a fresh person is assigned the proposed code, and on
revisit the smaller code is kept. -/
theorem c6_henry_extension_min_witness :
    alookup (henryAssign [] "P" "12".toList) "P" = some "12".toList ∧
    alookup (henryAssign [("P", "12".toList)] "P" "111".toList) "P"
      = some "111".toList :=
  ⟨c6_henry_extension_min.2.1 [] "P" "12".toList rfl, by
    have := c6_henry_extension_min.1 [("P", "12".toList)] "P" "111".toList
      "12".toList rfl
    rw [this]
    decide⟩

/-! ## Claim C3: machinery for the traversal-state invariant -/

lemma foldl_max_range' : ∀ n : Nat, (List.range' 1 n).foldl Nat.max 0 = n := by
  intro n
  induction n with
  | zero => rfl
  | succ k ih =>
    have hc : List.range' 1 (k + 1) = List.range' 1 k ++ [1 + k] := by
      have := @List.range'_concat 1 1 k
      simpa using this
    rw [hc, List.foldl_append, ih]
    show Nat.max k (1 + k) = k + 1
    have hmax : Nat.max k (1 + k) = 1 + k := Nat.max_eq_right (by omega)
    rw [hmax]
    omega

/-- Under the invariant, `max(self.map)` is the number of entries. -/
lemma maxKey_eq {m : List (Nat × String)}
    (h : m.map Prod.fst = List.range' 1 m.length) : maxKey m = m.length := by
  rw [maxKey, h, foldl_max_range']

/-- Under the invariant, `max(self.map) + 1` is a fresh key. -/
lemma fresh_key {m : List (Nat × String)}
    (h : m.map Prod.fst = List.range' 1 m.length) :
    ∀ p ∈ m, p.1 ≠ m.length + 1 := by
  intro p hp
  have : p.1 ∈ m.map Prod.fst := List.mem_map_of_mem Prod.fst hp
  rw [h] at this
  have := List.mem_range'_1.mp this
  omega

lemma bucketAddAt_length (l : List (List Nat)) (i x : Nat) :
    (bucketAddAt l i x).length = l.length := by
  induction l generalizing i with
  | nil => rfl
  | cons b bs ih =>
    cases i with
    | zero => rfl
    | succ j => simp [bucketAddAt, ih]

lemma bucketAddAt_get? (l : List (List Nat)) (i x : Nat) :
    ∀ j, (bucketAddAt l i x).get? j
      = if j = i then (l.get? j).map (fun b => b ++ [x]) else l.get? j := by
  induction l generalizing i with
  | nil => intro j; simp [bucketAddAt]
  | cons b bs ih =>
    intro j
    cases i with
    | zero =>
      cases j with
      | zero => rfl
      | succ j' => simp [bucketAddAt]
    | succ i' =>
      cases j with
      | zero => simp [bucketAddAt]
      | succ j' =>
        show (bucketAddAt bs i' x).get? j' = _
        rw [ih i' j']
        by_cases hji : j' = i'
        · rw [if_pos hji, if_pos (by omega)]
          rfl
        · rw [if_neg hji, if_neg (by omega)]
          rfl

/-- The shared visit bookkeeping preserves the invariant; the bucket list
grows to `max (old length) g`. -/
lemma recordVisit_good (s : EngState) (hs : GoodState s) (h : String) {g : Nat}
    (hg1 : 1 ≤ g) (hg2 : g ≤ s.genKeys.length + 1) :
    GoodState (recordVisit s (maxKey s.map + 1) h g)
    ∧ (recordVisit s (maxKey s.map + 1) h g).genKeys.length
        = Nat.max s.genKeys.length g := by
  obtain ⟨h1, h2, h3, h4⟩ := hs
  have hmk : maxKey s.map = s.map.length := maxKey_eq h1
  have hmap : ainsert s.map (maxKey s.map + 1) h = s.map ++ [(s.map.length + 1, h)] := by
    rw [hmk]; exact ainsert_fresh _ (fresh_key h1)
  have hkeys : (ainsert s.map (maxKey s.map + 1) h).map Prod.fst
      = List.range' 1 (s.map.length + 1) := by
    rw [hmap, List.map_append, h1]
    have := @List.range'_concat 1 1 s.map.length
    simp at this
    rw [this]
    simp [Nat.add_comm]
  have hlen : (ainsert s.map (maxKey s.map + 1) h).length = s.map.length + 1 := by
    rw [hmap]; simp
  have htr : (s.trace ++ [(maxKey s.map + 1, g)]).map Prod.fst
      = (ainsert s.map (maxKey s.map + 1) h).map Prod.fst := by
    rw [hmap, List.map_append, List.map_append, h2]
    simp [hmk]
  by_cases hcase : s.genKeys.length < g
  · -- a new bucket is appended; the generation is exactly length + 1
    have hgeq : g = s.genKeys.length + 1 := by omega
    have hbk : bucketAdd s.genKeys g (maxKey s.map + 1)
        = s.genKeys ++ [[maxKey s.map + 1]] := by
      rw [bucketAdd, if_pos hcase]
    refine ⟨⟨?_, ?_, ?_, ?_⟩, ?_⟩
    · show (ainsert s.map (maxKey s.map + 1) h).map Prod.fst
        = List.range' 1 (ainsert s.map (maxKey s.map + 1) h).length
      rw [hkeys, hlen]
    · exact htr
    · show ∀ p ∈ s.trace ++ [(maxKey s.map + 1, g)],
        1 ≤ p.2 ∧ p.2 ≤ (bucketAdd s.genKeys g (maxKey s.map + 1)).length
      rw [hbk]
      intro p hp
      rcases List.mem_append.mp hp with hp | hp
      · have := h3 p hp
        simp only [List.length_append, List.length_singleton]
        omega
      · rcases List.mem_singleton.mp hp with rfl
        simp only [List.length_append, List.length_singleton]
        omega
    · show ∀ g', g' < (bucketAdd s.genKeys g (maxKey s.map + 1)).length →
        (bucketAdd s.genKeys g (maxKey s.map + 1)).get? g'
          = some (((s.trace ++ [(maxKey s.map + 1, g)]).filter
              (fun p => p.2 = g' + 1)).map Prod.fst)
      rw [hbk]
      intro g' hg'
      simp only [List.length_append, List.length_singleton] at hg'
      rw [List.filter_append]
      by_cases hlt : g' < s.genKeys.length
      · rw [List.get?_append hlt, h4 g' hlt]
        have : List.filter (fun p => decide (p.2 = g' + 1)) [(maxKey s.map + 1, g)]
            = [] := by
          simp only [List.filter, decide_eq_true_eq]
          have : ¬ (g = g' + 1) := by omega
          simp [this]
        rw [this, List.append_nil]
      · have hg'eq : g' = s.genKeys.length := by omega
        rw [hg'eq, List.get?_concat_length]
        have hold : List.filter (fun p => decide (p.2 = s.genKeys.length + 1))
            s.trace = [] := by
          rw [List.filter_eq_nil]
          intro p hp
          have := h3 p hp
          simp only [decide_eq_true_eq]
          omega
        have hnew : List.filter (fun p => decide (p.2 = s.genKeys.length + 1))
            [(maxKey s.map + 1, g)] = [(maxKey s.map + 1, g)] := by
          simp only [List.filter, decide_eq_true_eq]
          have hgl : g = s.genKeys.length + 1 := by omega
          simp [hgl]
        rw [hold, hnew]
        rfl
    · show (bucketAdd s.genKeys g (maxKey s.map + 1)).length
        = Nat.max s.genKeys.length g
      rw [hbk]
      simp only [List.length_append, List.length_singleton]
      have hmx : Nat.max s.genKeys.length g = g := Nat.max_eq_right (by omega)
      rw [hmx]
      omega
  · -- the index is appended to the existing bucket `g - 1`
    have hble : g ≤ s.genKeys.length := by omega
    have hbk : bucketAdd s.genKeys g (maxKey s.map + 1)
        = bucketAddAt s.genKeys (g - 1) (maxKey s.map + 1) := by
      rw [bucketAdd, if_neg hcase]
    refine ⟨⟨?_, ?_, ?_, ?_⟩, ?_⟩
    · show (ainsert s.map (maxKey s.map + 1) h).map Prod.fst
        = List.range' 1 (ainsert s.map (maxKey s.map + 1) h).length
      rw [hkeys, hlen]
    · exact htr
    · show ∀ p ∈ s.trace ++ [(maxKey s.map + 1, g)],
        1 ≤ p.2 ∧ p.2 ≤ (bucketAdd s.genKeys g (maxKey s.map + 1)).length
      rw [hbk]
      intro p hp
      rw [bucketAddAt_length]
      rcases List.mem_append.mp hp with hp | hp
      · exact h3 p hp
      · rcases List.mem_singleton.mp hp with rfl
        exact ⟨hg1, hble⟩
    · show ∀ g', g' < (bucketAdd s.genKeys g (maxKey s.map + 1)).length →
        (bucketAdd s.genKeys g (maxKey s.map + 1)).get? g'
          = some (((s.trace ++ [(maxKey s.map + 1, g)]).filter
              (fun p => p.2 = g' + 1)).map Prod.fst)
      rw [hbk]
      intro g' hg'
      rw [bucketAddAt_length] at hg'
      rw [bucketAddAt_get?, List.filter_append]
      by_cases hji : g' = g - 1
      · rw [if_pos hji, h4 g' hg']
        have hnew : List.filter (fun p => decide (p.2 = g' + 1))
            [(maxKey s.map + 1, g)] = [(maxKey s.map + 1, g)] := by
          simp only [List.filter, decide_eq_true_eq]
          have : g = g' + 1 := by omega
          simp [this]
        rw [hnew, List.map_append]
        rfl
      · rw [if_neg hji, h4 g' hg']
        have hnew : List.filter (fun p => decide (p.2 = g' + 1))
            [(maxKey s.map + 1, g)] = [] := by
          simp only [List.filter, decide_eq_true_eq]
          have : ¬ (g = g' + 1) := by omega
          simp [this]
        rw [hnew, List.append_nil]
    · show (bucketAdd s.genKeys g (maxKey s.map + 1)).length
        = Nat.max s.genKeys.length g
      rw [hbk, bucketAddAt_length]
      have hmx : Nat.max s.genKeys.length g = s.genKeys.length :=
        Nat.max_eq_left (by omega)
      rw [hmx]

lemma goodState_empty : GoodState emptyState := by
  refine ⟨rfl, rfl, ?_, ?_⟩
  · intro p hp; cases hp
  · intro g hg; simp [emptyState] at hg

/-- The invariant survives the Henry child loop. -/
lemma henryKidsGo_good (g : Nat)
    (visit : String → Nat → PyStr → EngState → Except PyErr EngState)
    (hv : ∀ c pd st st', GoodState st → g ≤ st.genKeys.length + 1 →
      visit c (maxKey st.map + 1) pd st = .ok st' →
      GoodState st' ∧ st.genKeys.length ≤ st'.genKeys.length) :
    ∀ cs i pid s s', GoodState s → g ≤ s.genKeys.length + 1 →
      henryKidsGo visit cs i pid s = .ok s' →
      GoodState s' ∧ s.genKeys.length ≤ s'.genKeys.length := by
  intro cs
  induction cs with
  | nil => intro i pid s s' hs _ hr; cases hr; exact ⟨hs, le_refl _⟩
  | cons c cs ih =>
    intro i pid s s' hs hg hr
    rw [henryKidsGo] at hr
    cases hsym : henrySym i with
    | error e => rw [hsym] at hr; cases hr
    | ok ch =>
      rw [hsym] at hr
      simp only [] at hr
      cases hvr : visit c (maxKey s.map + 1) (pid ++ [ch]) s with
      | error e => rw [hvr] at hr; cases hr
      | ok s1 =>
        rw [hvr] at hr
        obtain ⟨hgood1, hle1⟩ := hv c (pid ++ [ch]) s s1 hs hg hvr
        obtain ⟨hgood2, hle2⟩ := ih (i + 1) pid s1 s' hgood1 (by omega) hr
        exact ⟨hgood2, by omega⟩

/-- The invariant survives the whole Henry filter; the bucket list never
shrinks. -/
lemma henryFilterF_good (db : DB) (maxGen : Nat) :
    ∀ fuel h ix pid g s s', GoodState s → 1 ≤ g → g ≤ s.genKeys.length + 1 →
      ix = maxKey s.map + 1 →
      henryFilterF db maxGen fuel h ix pid g s = .ok s' →
      GoodState s' ∧ s.genKeys.length ≤ s'.genKeys.length := by
  intro fuel
  induction fuel with
  | zero => intro h ix pid g s s' hs _ _ _ hr; cases hr; exact ⟨hs, le_refl _⟩
  | succ f ih =>
    intro h ix pid g s s' hs hg1 hg2 hix hr
    rw [henryFilterF] at hr
    split at hr
    · cases hr; exact ⟨hs, le_refl _⟩
    · subst hix
      obtain ⟨hrec, hlen⟩ :=
        recordVisit_good { s with dnumber := henryAssign s.dnumber h pid }
          hs h hg1 hg2
      obtain ⟨hgood', hmono⟩ := henryKidsGo_good (g + 1)
        (fun c ix' pd st => henryFilterF db maxGen f c ix' pd (g + 1) st)
        (fun c pd st st' hst hgen hrun =>
          ih c (maxKey st.map + 1) pd (g + 1) st st' hst (by omega) hgen rfl hrun)
        (childrenOf db h) 0 pid _ s' hrec
        (by rw [hlen]; exact Nat.succ_le_succ (Nat.le_max_right _ _)) hr
      refine ⟨hgood', le_trans ?_ hmono⟩
      rw [hlen]
      exact Nat.le_max_left _ _

/-- The invariant survives the Modified Henry child loop. -/
lemma mhenryKidsGo_good (g : Nat)
    (visit : String → Nat → PyStr → EngState → Except PyErr EngState)
    (hv : ∀ c pd st st', GoodState st → g ≤ st.genKeys.length + 1 →
      visit c (maxKey st.map + 1) pd st = .ok st' →
      GoodState st' ∧ st.genKeys.length ≤ st'.genKeys.length) :
    ∀ cs i pid s s', GoodState s → g ≤ s.genKeys.length + 1 →
      mhenryKidsGo visit cs i pid s = .ok s' →
      GoodState s' ∧ s.genKeys.length ≤ s'.genKeys.length := by
  intro cs
  induction cs with
  | nil => intro i pid s s' hs _ hr; cases hr; exact ⟨hs, le_refl _⟩
  | cons c cs ih =>
    intro i pid s s' hs hg hr
    rw [mhenryKidsGo] at hr
    cases hvr : visit c (maxKey s.map + 1) (pid ++ mhenrySym i) s with
    | error e => rw [hvr] at hr; cases hr
    | ok s1 =>
      rw [hvr] at hr
      obtain ⟨hgood1, hle1⟩ := hv c (pid ++ mhenrySym i) s s1 hs hg hvr
      obtain ⟨hgood2, hle2⟩ := ih (i + 1) pid s1 s' hgood1 (by omega) hr
      exact ⟨hgood2, by omega⟩

/-- The invariant survives `apply_mhenry_filter` (which recurses through the
Henry filter). -/
lemma mhenryFilterF_good (db : DB) (maxGen fuel : Nat) (h : String) (ix : Nat)
    (pid : PyStr) (g : Nat) (s s' : EngState) (hs : GoodState s) (hg1 : 1 ≤ g)
    (hg2 : g ≤ s.genKeys.length + 1) (hix : ix = maxKey s.map + 1)
    (hr : mhenryFilterF db maxGen fuel h ix pid g s = .ok s') :
    GoodState s' ∧ s.genKeys.length ≤ s'.genKeys.length := by
  rw [mhenryFilterF] at hr
  split at hr
  · cases hr; exact ⟨hs, le_refl _⟩
  · subst hix
    obtain ⟨hrec, hlen⟩ :=
      recordVisit_good { s with dnumber := ainsert s.dnumber h pid }
        hs h hg1 hg2
    obtain ⟨hgood', hmono⟩ := mhenryKidsGo_good (g + 1)
      (fun c ix' pd st => henryFilterF db maxGen fuel c ix' pd (g + 1) st)
      (fun c pd st st' hst hgen hrun =>
        henryFilterF_good db maxGen fuel c (maxKey st.map + 1) pd (g + 1) st st'
          hst (by omega) hgen rfl hrun)
      (childrenOf db h) 1 pid _ s' hrec
      (by rw [hlen]; exact Nat.succ_le_succ (Nat.le_max_right _ _)) hr
    refine ⟨hgood', le_trans ?_ hmono⟩
    rw [hlen]
    exact Nat.le_max_left _ _

/-- The invariant survives the d'Aboville child loop of one family. -/
lemma dabChildrenGo_good (g : Nat)
    (visit : String → Nat → PyStr → EngState → Except PyErr EngState)
    (hv : ∀ c cn st st', GoodState st → g ≤ st.genKeys.length + 1 →
      visit c (maxKey st.map + 1) cn st = .ok st' →
      GoodState st' ∧ st.genKeys.length ≤ st'.genKeys.length) :
    ∀ cs dfam idx dfIdx s s' k, GoodState s → g ≤ s.genKeys.length + 1 →
      dabChildrenGo visit cs dfam idx dfIdx s = .ok (s', k) →
      GoodState s' ∧ s.genKeys.length ≤ s'.genKeys.length := by
  intro cs
  induction cs with
  | nil => intro dfam idx dfIdx s s' k hs _ hr; cases hr; exact ⟨hs, le_refl _⟩
  | cons c cs ih =>
    intro dfam idx dfIdx s s' k hs hg hr
    rw [dabChildrenGo] at hr
    cases hvr : visit c (maxKey s.map + 1)
        (natToStr (if dfam then dfIdx else idx)) s with
    | error e => rw [hvr] at hr; cases hr
    | ok s1 =>
      rw [hvr] at hr
      obtain ⟨hgood1, hle1⟩ := hv c (natToStr (if dfam then dfIdx else idx)) s s1 hs hg hvr
      obtain ⟨hgood2, hle2⟩ := ih dfam _ _ s1 s' k hgood1 (by omega) hr
      exact ⟨hgood2, by omega⟩

/-- The invariant survives the d'Aboville loop over a person's families. -/
lemma dabFamsGo_good (g : Nat)
    (visit : String → Nat → PyStr → EngState → Except PyErr EngState) (db : DB)
    (hv : ∀ c cn st st', GoodState st → g ≤ st.genKeys.length + 1 →
      visit c (maxKey st.map + 1) cn st = .ok st' →
      GoodState st' ∧ st.genKeys.length ≤ st'.genKeys.length) :
    ∀ fams idx s s', GoodState s → g ≤ s.genKeys.length + 1 →
      dabFamsGo visit db fams idx s = .ok s' →
      GoodState s' ∧ s.genKeys.length ≤ s'.genKeys.length := by
  intro fams
  induction fams with
  | nil => intro idx s s' hs _ hr; cases hr; exact ⟨hs, le_refl _⟩
  | cons fh rest ih =>
    intro idx s s' hs hg hr
    rw [dabFamsGo] at hr
    cases hc : dabChildrenGo visit (db.families fh).children
        (pyTruthy (dget s.dnumber (db.families fh).mother)
          && pyTruthy (dget s.dnumber (db.families fh).father)) idx 1 s with
    | error e => rw [hc] at hr; cases hr
    | ok p =>
      rw [hc] at hr
      obtain ⟨hgood1, hle1⟩ := dabChildrenGo_good g visit hv
        (db.families fh).children _ idx 1 s p.1 p.2 hs hg hc
      obtain ⟨hgood2, hle2⟩ := ih p.2 p.1 s' hgood1 (by omega) hr
      exact ⟨hgood2, by omega⟩

/-- The invariant survives the whole d'Aboville filter. -/
lemma dabFilterF_good (db : DB) (maxGen : Nat) :
    ∀ fuel h ix cn g s s', GoodState s → 1 ≤ g → g ≤ s.genKeys.length + 1 →
      ix = maxKey s.map + 1 →
      dabFilterF db maxGen fuel h ix cn g s = .ok s' →
      GoodState s' ∧ s.genKeys.length ≤ s'.genKeys.length := by
  intro fuel
  induction fuel with
  | zero => intro h ix cn g s s' hs _ _ _ hr; cases hr; exact ⟨hs, le_refl _⟩
  | succ f ih =>
    intro h ix cn g s s' hs hg1 hg2 hix hr
    rw [dabFilterF] at hr
    split at hr
    · cases hr; exact ⟨hs, le_refl _⟩
    · subst hix
      obtain ⟨hrec, hlen⟩ := recordVisit_good s hs h hg1 hg2
      cases hn : dabNumber db (recordVisit s (maxKey s.map + 1) h g).dnumber
          ((db.persons h).parentFamilies) cn g with
      | error e => simp only [hn] at hr; cases hr
      | ok number =>
        simp only [hn] at hr
        obtain ⟨hgood', hmono⟩ := dabFamsGo_good (g + 1)
          (fun c ix' cn' st => dabFilterF db maxGen f c ix' cn' (g + 1) st) db
          (fun c cn' st st' hst hgen hrun =>
            ih c (maxKey st.map + 1) cn' (g + 1) st st' hst (by omega) hgen rfl hrun)
          ((db.persons h).families) 1
          { map := (recordVisit s (maxKey s.map + 1) h g).map,
            genKeys := (recordVisit s (maxKey s.map + 1) h g).genKeys,
            dnumber := ainsert (recordVisit s (maxKey s.map + 1) h g).dnumber h number,
            trace := (recordVisit s (maxKey s.map + 1) h g).trace } s' hrec
          (by show g + 1 ≤ (recordVisit s (maxKey s.map + 1) h g).genKeys.length + 1
              rw [hlen]
              exact Nat.succ_le_succ (Nat.le_max_right _ _)) hr
        refine ⟨hgood', le_trans ?_ hmono⟩
        rw [hlen]
        exact Nat.le_max_left _ _

/-- Buckets of generation-filtered entries partition a bounded trace. -/
lemma buckets_join_perm :
    ∀ (L : Nat) (tr : List (Nat × Nat)), (∀ p ∈ tr, 1 ≤ p.2 ∧ p.2 ≤ L) →
      List.Perm
        (((List.range L).map
          (fun g => (tr.filter (fun p => p.2 = g + 1)).map Prod.fst)).flatten)
        (tr.map Prod.fst) := by
  intro L
  induction L with
  | zero =>
    intro tr hb
    have htr : tr = [] := by
      cases tr with
      | nil => rfl
      | cons p ps =>
        have := hb p (List.mem_cons_self p ps)
        omega
    subst htr
    simp
  | succ L ihL =>
    intro tr hb
    rw [List.range_succ, List.map_append, List.flatten_append]
    have hone : ((([L]).map
        (fun g => (tr.filter (fun p => p.2 = g + 1)).map Prod.fst)).flatten)
        = (tr.filter (fun p => p.2 = L + 1)).map Prod.fst := by
      simp
    rw [hone]
    have hcomm : ∀ g, g < L →
        ((tr.filter (fun p => !(decide (p.2 = L + 1)))).filter
          (fun p => p.2 = g + 1))
        = tr.filter (fun p => p.2 = g + 1) := by
      intro g hg
      rw [List.filter_filter]
      apply List.filter_congr
      intro p _
      by_cases hp : p.2 = g + 1
      · have : ¬ (p.2 = L + 1) := by omega
        simp [hp, this]
        omega
      · simp [hp]
    have hmapeq : (List.range L).map
        (fun g => (tr.filter (fun p => p.2 = g + 1)).map Prod.fst)
        = (List.range L).map
          (fun g => ((tr.filter (fun p => !(decide (p.2 = L + 1)))).filter
            (fun p => p.2 = g + 1)).map Prod.fst) := by
      apply List.map_congr_left
      intro g hg
      rw [hcomm g (List.mem_range.mp hg)]
    rw [hmapeq]
    have hb' : ∀ p ∈ tr.filter (fun p => !(decide (p.2 = L + 1))),
        1 ≤ p.2 ∧ p.2 ≤ L := by
      intro p hp
      obtain ⟨hmem, hpred⟩ := List.mem_filter.mp hp
      have := hb p hmem
      simp only [Bool.not_eq_true', decide_eq_false_iff_not] at hpred
      omega
    refine ((ihL _ hb').append_right _).trans ?_
    rw [← List.map_append]
    exact (List.perm_append_comm.trans (List.filter_append_perm _ tr)).map Prod.fst

/-- What the invariant yields for the final state: dense indices `1..N` in
traversal order, a trace mirroring them, buckets that partition the indices
exactly once, the bucket-to-generation correspondence, and strictly
increasing indices inside every bucket. -/
lemma goodState_conclusions {s : EngState} (hs : GoodState s) :
    s.map.map Prod.fst = List.range' 1 s.map.length
    ∧ s.trace.map Prod.fst = s.map.map Prod.fst
    ∧ List.Perm s.genKeys.flatten (s.map.map Prod.fst)
    ∧ (∀ g, g < s.genKeys.length →
        s.genKeys.get? g
          = some ((s.trace.filter (fun p => p.2 = g + 1)).map Prod.fst))
    ∧ (∀ b ∈ s.genKeys, b.Pairwise (· < ·)) := by
  obtain ⟨h1, h2, h3, h4⟩ := hs
  have hform : s.genKeys = (List.range s.genKeys.length).map
      (fun g => (s.trace.filter (fun p => p.2 = g + 1)).map Prod.fst) := by
    apply List.ext_get?
    intro i
    by_cases hi : i < s.genKeys.length
    · rw [h4 i hi, List.get?_map, List.get?_range hi]
      rfl
    · rw [List.get?_eq_none.mpr (by omega), List.get?_eq_none.mpr (by simp; omega)]
  refine ⟨h1, h2, ?_, h4, ?_⟩
  · have hperm := buckets_join_perm s.genKeys.length s.trace h3
    rw [← hform] at hperm
    rw [← h2]
    exact hperm
  · intro b hb
    obtain ⟨g, hg⟩ := List.get?_of_mem hb
    have hglen : g < s.genKeys.length := (List.get?_eq_some.mp hg).1
    have hbeq : b = (s.trace.filter (fun p => p.2 = g + 1)).map Prod.fst := by
      have := h4 g hglen
      rw [hg] at this
      exact Option.some_injective _ this
    have hsub : List.Sublist b (s.trace.map Prod.fst) := by
      rw [hbeq]
      exact (List.filter_sublist s.trace).map Prod.fst
    rw [h2, h1] at hsub
    exact (List.pairwise_lt_range' 1 s.map.length).sublist hsub

/-- C3.  For every run of any scheme (Henry, Modified Henry or d'Aboville)
that completes: the assigned traversal indices are exactly `{1 .. N}`, in
traversal order (the i-th recorded visit gets index i, so no index is
skipped or reused); the visit log mirrors the index map; the generation
buckets partition those indices exactly once (their concatenation is a
permutation of the index list); bucket `g` (position `g`, 0-based) holds
exactly the indices of the visits made at generation `g + 1`, in traversal
order; and the indices inside each bucket are strictly increasing, which is
traversal (pre-)order because indices are assigned in visit order. -/
theorem c3_index_bijection_buckets (db : DB) (maxGen : Nat) (root : String)
    (s' : EngState)
    (hrun : henryRun db maxGen root = .ok s' ∨ mhenryRun db maxGen root = .ok s'
      ∨ dabRun db maxGen root = .ok s') :
    s'.map.map Prod.fst = List.range' 1 s'.map.length
    ∧ s'.trace.map Prod.fst = s'.map.map Prod.fst
    ∧ List.Perm s'.genKeys.flatten (s'.map.map Prod.fst)
    ∧ (∀ g, g < s'.genKeys.length →
        s'.genKeys.get? g
          = some ((s'.trace.filter (fun p => p.2 = g + 1)).map Prod.fst))
    ∧ (∀ b ∈ s'.genKeys, b.Pairwise (· < ·)) := by
  have hgood : GoodState s' := by
    rcases hrun with hr | hr | hr
    · exact (henryFilterF_good db maxGen (maxGen + 1) root 1 "1".toList 1
        emptyState s' goodState_empty (by omega) (by simp [emptyState]) rfl hr).1
    · exact (mhenryFilterF_good db maxGen (maxGen + 1) root 1 "1".toList 1
        emptyState s' goodState_empty (by omega) (by simp [emptyState]) rfl hr).1
    · exact (dabFilterF_good db maxGen (maxGen + 1) root 1 "1".toList 1
        emptyState s' goodState_empty (by omega) (by simp [emptyState]) rfl hr).1
  exact goodState_conclusions hgood

/-- C3, witness: the two-generation Henry example (root with children `A`,
`B`, `C` across two families). -/
theorem c3_index_bijection_buckets_witness :
    (dbTwoFam.persons "R").families = ["F1", "F2"]
    ∧ (henryRun dbTwoFam 2 "R" = .ok
        ⟨[(1, "R"), (2, "A"), (3, "B"), (4, "C")], [[1], [2, 3, 4]],
          [("R", "1".toList), ("A", "11".toList), ("B", "12".toList),
            ("C", "13".toList)], [(1, 1), (2, 2), (3, 2), (4, 2)]⟩)
    ∧ ([[1], [2, 3, 4]] : List (List Nat)).flatten.Perm [1, 2, 3, 4] := by
  refine ⟨by decide, by decide, ?_⟩
  have h := c3_index_bijection_buckets dbTwoFam 2 "R"
    ⟨[(1, "R"), (2, "A"), (3, "B"), (4, "C")], [[1], [2, 3, 4]],
      [("R", "1".toList), ("A", "11".toList), ("B", "12".toList),
        ("C", "13".toList)], [(1, 1), (2, 2), (3, 2), (4, 2)]⟩
    (Or.inl (by decide))
  exact h.2.2.1
